import Mathlib

/-!
Verification of the core of `download_pdfs.py`: a concurrent batch
downloader that derives collision-safe local filenames from URLs, streams
each response to a temporary `.part` file, and atomically publishes it by
rename.  Strings are modelled as `List Char`, the destination directory as
an association list from full paths to byte contents, and the effect of one
download as an explicit trace of filesystem operations.
-/

/-- Strings are embedded as lists of characters. -/
abbrev Str := List Char

/-- Decidable equality for `Except`, used to evaluate concrete runs. -/
instance {e a : Type} [DecidableEq e] [DecidableEq a] : DecidableEq (Except e a) := fun x y =>
  match x, y with
  | .ok v, .ok w =>
    if h : v = w then .isTrue (by rw [h]) else .isFalse (fun hh => h (Except.ok.inj hh))
  | .error v, .error w =>
    if h : v = w then .isTrue (by rw [h]) else .isFalse (fun hh => h (Except.error.inj hh))
  | .ok v, .error w => .isFalse (fun hh => Except.noConfusion hh)
  | .error v, .ok w => .isFalse (fun hh => Except.noConfusion hh)

/-- Decides whether a character is a hexadecimal digit
(model of the digit test inside `urllib.parse.unquote`). -/
def isHexDigit (c : Char) : Bool :=
  (decide ('0' ≤ c) && decide (c ≤ '9')) ||
  (decide ('a' ≤ c) && decide (c ≤ 'f')) ||
  (decide ('A' ≤ c) && decide (c ≤ 'F'))

/-- Numeric value of a hexadecimal digit character. -/
def hexVal (c : Char) : Nat :=
  if decide ('0' ≤ c) && decide (c ≤ '9') then c.toNat - 48
  else if decide ('a' ≤ c) && decide (c ≤ 'f') then c.toNat - 87
  else if decide ('A' ≤ c) && decide (c ≤ 'F') then c.toNat - 55
  else 0

/-- Model of `urllib.parse.unquote`: decodes `%XX` escapes byte-wise,
leaving malformed escapes untouched (the UTF-8 re-decoding of multi-byte
sequences is simplified to one character per byte; none of the verified
properties depends on that detail).  Following CPython, the input is split
on `%` and each following segment is decoded when it starts with two hex
digits; `unquoteSeg` handles one such segment. -/
def unquoteSeg (p : Str) : Str :=
  match p with
  | a :: b :: r =>
    if isHexDigit a && isHexDigit b then
      Char.ofNat (16 * hexVal a + hexVal b) :: r
    else '%' :: p
  | _ => '%' :: p

def unquote (s : Str) : Str :=
  match s.splitOn '%' with
  | [] => []
  | first :: parts => first ++ (parts.map unquoteSeg).flatten

/-- Model of the path component extraction of `urllib.parse.urlparse`:
drop the fragment, strip a leading `scheme:`, extract the `//netloc` part
when present, and drop the query string.  Following CPython, a netloc with
mismatched square brackets (e.g. the URL `"http://["`) raises
`ValueError("Invalid IPv6 URL")`, modelled as the `.error` case. -/
def urlPath (url : Str) : Except Str Str :=
  let noFrag := url.takeWhile (fun c => c ≠ '#')
  let pre := noFrag.takeWhile (fun c => c ≠ ':')
  let schemeOk := pre ≠ [] ∧ pre.length < noFrag.length ∧
    ∀ c ∈ pre, c.isAlpha ∨ c.isDigit ∨ c = '+' ∨ c = '-' ∨ c = '.'
  let rest := if schemeOk then noFrag.drop (pre.length + 1) else noFrag
  match rest with
  | '/' :: '/' :: r =>
    let netloc := r.takeWhile (fun c => c ≠ '/' ∧ c ≠ '?')
    if ('[' ∈ netloc ∧ ']' ∉ netloc) ∨ (']' ∈ netloc ∧ '[' ∉ netloc) then
      .error "Invalid IPv6 URL".data
    else
      .ok ((r.drop netloc.length).takeWhile (fun c => c ≠ '?'))
  | _ => .ok (rest.takeWhile (fun c => c ≠ '?'))

/-- Model of `os.path.basename`: everything after the last `/`. -/
def basename (p : Str) : Str :=
  (p.reverse.takeWhile (fun c => c ≠ '/')).reverse

/-- Modelled from the spec: CPython's built-in `hash` on strings is a salted
(per-process randomized, `PYTHONHASHSEED`) non-cryptographic hash; its exact
mixing is interpreter-internal and not part of this repository, so it is
modelled as an explicit deterministic function of the per-process seed and
the string, producing a 64-bit signed value. -/
def pyHash (seed : Nat) (s : Str) : Int :=
  Int.ofNat (s.foldl (fun h c => (h * 31 + c.toNat) % 2 ^ 64) (seed % 2 ^ 64)) - 2 ^ 63

/-- Fallback filename `file_<abs(hash(url))>.pdf` synthesized when the URL
path has no last segment (source line 45). -/
def fallbackName (seed : Nat) (url : Str) : Str :=
  "file_".data ++ Nat.toDigits 10 (pyHash seed url).natAbs ++ ".pdf".data

/-- Model of Python `str.replace` for a single-character pattern. -/
def replaceChar (a b : Char) (s : Str) : Str :=
  s.map (fun c => if c = a then b else c)

/-- Name derivation applied to an already-parsed URL path (source lines
41-48): take the last segment, strip any query remnant, percent-decode,
fall back to a synthesized hash name when empty, then replace path
separators by underscores. -/
def nameFromPath (seed : Nat) (url p : Str) : Str :=
  let name0 := basename p
  let name1 := unquote (name0.takeWhile (fun c => c ≠ '?'))
  let name2 := if name1 = [] then fallbackName seed url else name1
  replaceChar '\\' '_' (replaceChar '/' '_' name2)

/-- Embedding of `filename_from_url` (source lines 39-48).  The `urlparse`
call on line 40 can raise `ValueError` on a bracket-mismatched netloc; that
exception propagates out of `filename_from_url`, so the result is an
`Except`.  The per-process hash seed is passed explicitly. -/
def filename_from_url (seed : Nat) (url : Str) : Except Str Str :=
  match urlPath url with
  | .error e => .error e
  | .ok p => .ok (nameFromPath seed url p)

/-- Decides whether name resolution for a URL returns normally (no
`ValueError` from `urlparse`). -/
def nameResolves (seed : Nat) (url : Str) : Bool :=
  match filename_from_url seed url with
  | .ok _ => true
  | .error _ => false

/-- Value of the resolved name, with an irrelevant default in the raising
case (where `download_one` performs no filesystem operation at all). -/
def nameOf (seed : Nat) (url : Str) : Str :=
  match filename_from_url seed url with
  | .ok nm => nm
  | .error _ => []

/-- Local path, split as destination directory plus leaf filename
(`Path(dest_dir) / name` in the source always has this shape because
`filename_from_url` returns a separator-free leaf name). -/
structure Pth where
  dir : Str
  file : Str
deriving DecidableEq

/-- Rendering of a path as the full string key used by the filesystem. -/
def Pth.toStr (p : Pth) : Str := p.dir ++ '/' :: p.file

/-- State of the destination directory: an association list from full path
strings to file contents (lists of bytes). -/
abbrev FS := List (Str × List Nat)

/-- Look up the content stored at a path. -/
def fsLookup : FS → Str → Option (List Nat)
  | [], _ => none
  | (k, v) :: t, q => if k = q then some v else fsLookup t q

/-- Model of `Path.exists()`. -/
def fsExists (fs : FS) (q : Str) : Bool := (fsLookup fs q).isSome

/-- Model of `pathlib`'s `Path.stem` / `Path.suffix` split of a leaf name:
the extension starts at the last dot, except when that dot is the first or
the last character of the name. -/
def splitStemSuffix (name : Str) : Str × Str :=
  let r := name.reverse
  let pre := r.takeWhile (fun c => c ≠ '.')
  if pre.length = r.length then (name, [])
  else if pre.length = 0 then (name, [])
  else if r.length ≤ pre.length + 1 then (name, [])
  else ((r.drop (pre.length + 1)).reverse, '.' :: pre.reverse)

def stemOf (name : Str) : Str := (splitStemSuffix name).1

def suffixOf (name : Str) : Str := (splitStemSuffix name).2

/-- Candidate path `f"{base}_{i}{suffix}"` built by `resolve_collision`
(source line 57): the counter is rendered in decimal and inserted between
the stem and the extension. -/
def mkCand (dir st sf : Str) (i : Nat) : Pth :=
  ⟨dir, st ++ '_' :: (Nat.toDigits 10 i ++ sf)⟩

/-- Length of the longest path present in the filesystem; used only to
bound the fuel of the collision search. -/
def maxLenFS (fs : FS) : Nat := fs.foldr (fun e m => max e.1.length m) 0

/-- Search loop of `resolve_collision` (source lines 55-60): try
`name_1`, `name_2`, ... in order until a candidate does not exist.  The
source's `while True` loop is embedded with explicit fuel; the fuel chosen
in `resolve_collision` is proved sufficient, so the fuel-exhausted branch
is never reached. -/
def resolveAux (fs : FS) (dir st sf : Str) : Nat → Nat → Pth
  | i, 0 => mkCand dir st sf i
  | i, fuel + 1 =>
    let c := mkCand dir st sf i
    if fsExists fs c.toStr then resolveAux fs dir st sf (i + 1) fuel else c

/-- Embedding of `resolve_collision` (source lines 50-60): return the path
itself when free, otherwise the first numbered candidate that does not
exist.  A candidate whose counter has more decimal digits than the longest
existing path cannot collide, so fuel `10 ^ (maxLenFS fs + 1)` always
suffices. -/
def resolve_collision (fs : FS) (p : Pth) : Pth :=
  if fsExists fs p.toStr then
    resolveAux fs p.dir (stemOf p.file) (suffixOf p.file) 1 (10 ^ (maxLenFS fs + 1))
  else p

/-- Filesystem operations performed by one download: `open(temp, "wb")`
(create or truncate), a chunk write, the atomic `temp.replace(dest)`, and
`temp.unlink()`. -/
inductive FsOp where
  | openW (p : Str)
  | write (p : Str) (chunk : List Nat)
  | replace (src dst : Str)
  | unlink (p : Str)
deriving DecidableEq

/-- Remove the binding of a path. -/
def fsErase : FS → Str → FS
  | [], _ => []
  | (a, v) :: t, k => if a = k then fsErase t k else (a, v) :: fsErase t k

/-- Bind a path to a content, replacing any previous binding. -/
def fsSet (fs : FS) (k : Str) (v : List Nat) : FS := (k, v) :: fsErase fs k

/-- Effect of one filesystem operation on the directory state. -/
def applyOp (fs : FS) : FsOp → FS
  | .openW p => fsSet fs p []
  | .write p c => fsSet fs p ((fsLookup fs p).getD [] ++ c)
  | .replace s d =>
    match fsLookup fs s with
    | some v => fsSet (fsErase fs s) d v
    | none => fs
  | .unlink p => fsErase fs p

/-- Effect of a trace of operations, applied left to right. -/
def applyOps (fs : FS) (ops : List FsOp) : FS := ops.foldl applyOp fs

/-- Model of one HTTP response: status code, the body chunks that the
stream delivers (as produced by `iter_content(chunk_size=8192)`), and an
optional error raised by the stream after those chunks. -/
structure HttpResp where
  status : Nat
  chunks : List (List Nat)
  streamErr : Option Str
deriving DecidableEq

/-- Model of the message of the `requests.HTTPError` raised by
`raise_for_status` for a 4xx/5xx response. -/
def statusMsg (code : Nat) (url : Str) : Str :=
  Nat.toDigits 10 code ++ " Error for url: ".data ++ url

/-- Write operations emitted by the streaming loop (source lines 72-74):
one write per chunk, skipping empty chunks (`if chunk:`). -/
def writeOps (t : Str) : List (List Nat) → List FsOp
  | [] => []
  | c :: cs => if c = [] then writeOps t cs else FsOp.write t c :: writeOps t cs

/-- Body of the `try` block of `download_one` (source lines 69-77): issue
the GET, raise on bad status, stream the body into the temporary file, and
on clean end of stream rename it onto the destination.  Returns the
filesystem operations actually performed together with the error raised,
if any.  A connection-level failure (retries exhausted) is the `.error`
case of the response and performs no filesystem operation. -/
def bodyRun (temp dest : Pth) (url : Str) (resp : Except Str HttpResp) :
    List FsOp × Option Str :=
  match resp with
  | .error e => ([], some e)
  | .ok r =>
    if 400 ≤ r.status ∧ r.status < 600 then ([], some (statusMsg r.status url))
    else
      let w := FsOp.openW temp.toStr :: writeOps temp.toStr r.chunks
      match r.streamErr with
      | some e => (w, some e)
      | none => (w ++ [FsOp.replace temp.toStr dest.toStr], none)

/-- Outcome record `(url, success, detail)` returned by `download_one`. -/
structure Outcome where
  url : Str
  success : Bool
  detail : Str
deriving DecidableEq

/-- Summary of which error, if any, the fetch of one URL raises: the
connection error, the `raise_for_status` error, or the stream error. -/
def respFailure (url : Str) (resp : Except Str HttpResp) : Option Str :=
  match resp with
  | .error e => some e
  | .ok r =>
    if 400 ≤ r.status ∧ r.status < 600 then some (statusMsg r.status url)
    else r.streamErr

/-- Final destination computed by `download_one` (source lines 64-66):
`resolve_collision(Path(dest_dir) / filename_from_url(url))`.  When name
resolution raises, the source computes no destination and touches no file;
the default value used here is then never consulted by any trace. -/
def destOf (fs : FS) (url dest_dir : Str) (seed : Nat) : Pth :=
  resolve_collision fs ⟨dest_dir, nameOf seed url⟩

/-- Temporary path `dest.with_name(dest.name + ".part")` (source line 67). -/
def tempOf (fs : FS) (url dest_dir : Str) (seed : Nat) : Pth :=
  ⟨(destOf fs url dest_dir seed).dir, (destOf fs url dest_dir seed).file ++ ".part".data⟩

/-- Embedding of `download_one` (source lines 62-85): resolve the name
(line 64, outside the `try`: a `ValueError` raised there propagates out of
`download_one` as the `.error` result, with no filesystem operation
performed), then the collision-free destination and the `.part` temporary
path, run the try-block, and on failure best-effort delete the temporary
file (the `unlinkOk` flag models whether the swallowed `temp.unlink()`
call itself succeeds) and convert the error into a failed Outcome.
Returns the trace of filesystem operations performed, together with either
the Outcome or the uncaught exception. -/
def download_one (fs : FS) (url dest_dir : Str) (resp : Except Str HttpResp)
    (unlinkOk : Bool) (seed : Nat) : List FsOp × Except Str Outcome :=
  match filename_from_url seed url with
  | .error e => ([], .error e)
  | .ok _ =>
    let dest := destOf fs url dest_dir seed
    let temp := tempOf fs url dest_dir seed
    match bodyRun temp dest url resp with
    | (ops, none) => (ops, .ok ⟨url, true, dest.toStr⟩)
    | (ops, some e) =>
      let fsAfter := applyOps fs ops
      let ops2 :=
        if fsExists fsAfter temp.toStr then
          if unlinkOk then ops ++ [FsOp.unlink temp.toStr] else ops
        else ops
      (ops2, .ok ⟨url, false, e⟩)

/-- Embedding of the dispatch and collection loop of `main` (source lines
114-123), linearized in submission order.  `fut.result()` on line 118
re-raises any exception stored in a future; the exception escapes the
`as_completed` loop, so collection stops: the third component records the
uncaught exception, and the outcomes of the remaining URLs are dropped. -/
def runBatch (fs : FS) (dest_dir : Str) (resps : Str → Except Str HttpResp)
    (unlinkOk : Bool) (seed : Nat) : List Str → FS × List Outcome × Option Str
  | [] => (fs, [], none)
  | u :: us =>
    let r := download_one fs u dest_dir (resps u) unlinkOk seed
    match r.2 with
    | .error e => (applyOps fs r.1, [], some e)
    | .ok out =>
      let rest := runBatch (applyOps fs r.1) dest_dir resps unlinkOk seed us
      (rest.1, out :: rest.2.1, rest.2.2)

/-- Retry configuration of `urllib3.util.retry.Retry` as constructed by
`create_session` (source lines 22-27). -/
structure RetryCfg where
  total : Nat
  backoff_factor : ℚ
  status_forcelist : List Nat
  allowed_methods : List Str
deriving DecidableEq

/-- Session model: the retry-configured adapter is mounted on both URL
schemes, and a User-Agent header is set (source lines 28-31). -/
structure Session where
  mounts : List (Str × RetryCfg)
  userAgent : Str
deriving DecidableEq

/-- Embedding of `create_session` (source lines 20-32). -/
def create_session (retries : Nat) (backoff : ℚ) : Session :=
  let retry : RetryCfg :=
    { total := retries
      backoff_factor := backoff
      status_forcelist := [429, 500, 502, 503, 504]
      allowed_methods := ["GET".data, "HEAD".data] }
  { mounts := [("http://".data, retry), ("https://".data, retry)]
    userAgent := "pdf-downloader/1.0".data }

/-- Session obtained by every worker: `get_session` calls
`create_session()` with its default arguments `retries=5, backoff=0.5`. -/
def get_session : Session := create_session 5 (1 / 2)

/-- Modelled from the spec and the `urllib3` contract of the `Retry`
object: a retry is attempted only when the method is in `allowed_methods`
and the status code is in `status_forcelist`. -/
def retryEligible (r : RetryCfg) (method : Str) (code : Nat) : Bool :=
  r.allowed_methods.contains method && r.status_forcelist.contains code

/-- Modelled from the spec and the `urllib3` contract of `backoff_factor`:
the delay before retry `k+1` is `backoff_factor * 2 ^ k` seconds. -/
def backoffDelay (r : RetryCfg) (k : Nat) : ℚ := r.backoff_factor * 2 ^ k

/-- Modelled from the documented `urllib3` contract of `Retry.total`: it is
the number of retries *allowed beyond the initial attempt* (`total=0` still
performs one request), so a configuration with `total = N` permits up to
`N + 1` HTTP attempts. -/
def maxAttempts (r : RetryCfg) : Nat := r.total + 1

/-- Effective worker count `max(1, min(args.workers, len(urls)))`
(source line 110); the requested count is an arbitrary integer. -/
def effectiveWorkers (w : Int) (n : Nat) : Int := max 1 (min w (n : Int))

/-- Paths whose binding an operation may change. -/
def opWrites : FsOp → List Str
  | .openW p => [p]
  | .write p _ => [p]
  | .replace s d => [s, d]
  | .unlink p => [p]

lemma fsLookup_erase (fs : FS) (k q : Str) :
    fsLookup (fsErase fs k) q = if k = q then none else fsLookup fs q := by
  induction fs with
  | nil => simp [fsErase, fsLookup]
  | cons e t ih =>
    obtain ⟨a, v⟩ := e
    by_cases hak : a = k
    · subst hak
      by_cases hq : a = q
      · subst hq; simp [fsErase, ih]
      · simp [fsErase, fsLookup, hq, ih]
    · by_cases hq : a = q
      · subst hq
        have : ¬ k = a := fun h => hak h.symm
        simp [fsErase, fsLookup, hak, this]
      · simp [fsErase, fsLookup, hak, hq, ih]

lemma fsLookup_set (fs : FS) (k q : Str) (v : List Nat) :
    fsLookup (fsSet fs k v) q = if k = q then some v else fsLookup fs q := by
  by_cases h : k = q <;> simp [fsSet, fsLookup, fsLookup_erase, h]

lemma toDigitsCore_length_lower (b : Nat) (hb : 1 < b) :
    ∀ (e f n : Nat), n < f → b ^ e ≤ n → e < (Nat.toDigitsCore b f n []).length := by
  intro e
  induction e with
  | zero =>
    intro f n hf _
    cases f with
    | zero => omega
    | succ f =>
      simp only [Nat.toDigitsCore]
      by_cases h : n / b = 0
      · simp [h]
      · rw [if_neg h, Nat.toDigitsCore_lens_eq]
        omega
  | succ e ih =>
    intro f n hf hn
    have hb0 : 0 < b := by omega
    have hp : 0 < b ^ e := Nat.pos_pow_of_pos e hb0
    have hn0 : 0 < n := lt_of_lt_of_le (Nat.pos_pow_of_pos (e + 1) hb0) hn
    have hdiv : b ^ e ≤ n / b := by
      rw [Nat.le_div_iff_mul_le hb0]
      calc b ^ e * b = b ^ (e + 1) := (pow_succ b e).symm
        _ ≤ n := hn
    have hdiv0 : ¬ n / b = 0 := by omega
    cases f with
    | zero => omega
    | succ f =>
      simp only [Nat.toDigitsCore]
      rw [if_neg hdiv0, Nat.toDigitsCore_lens_eq]
      have hlt : n / b < f := by
        have h1 : n / b < n := Nat.div_lt_self hn0 hb
        omega
      exact Nat.succ_lt_succ (ih f (n / b) hlt hdiv)

lemma toDigits_length_lower (e n : Nat) (h : 10 ^ e ≤ n) :
    e < (Nat.toDigits 10 n).length := by
  have := toDigitsCore_length_lower 10 (by norm_num) e (n + 1) n (Nat.lt_succ_self n) h
  simpa [Nat.toDigits] using this

lemma length_le_maxLenFS (fs : FS) (q : Str) (h : fsExists fs q = true) :
    q.length ≤ maxLenFS fs := by
  induction fs with
  | nil => simp [fsExists, fsLookup] at h
  | cons e t ih =>
    obtain ⟨a, v⟩ := e
    by_cases hq : a = q
    · subst hq
      simp only [maxLenFS, List.foldr_cons]
      exact le_max_left _ _
    · have h' : fsExists t q = true := by
        simpa [fsExists, fsLookup, hq] using h
      calc q.length ≤ maxLenFS t := ih h'
        _ ≤ max a.length (maxLenFS t) := le_max_right _ _
        _ = maxLenFS ((a, v) :: t) := by simp [maxLenFS]

lemma mkCand_toStr_length (dir st sf : Str) (i : Nat) :
    (Nat.toDigits 10 i).length ≤ (mkCand dir st sf i).toStr.length := by
  simp [mkCand, Pth.toStr, List.length_append]
  omega

lemma bigCand_fresh (fs : FS) (dir st sf : Str) :
    fsExists fs (mkCand dir st sf (10 ^ maxLenFS fs)).toStr = false := by
  by_cases h : fsExists fs (mkCand dir st sf (10 ^ maxLenFS fs)).toStr = true
  · exfalso
    have h1 := length_le_maxLenFS fs _ h
    have h2 := toDigits_length_lower (maxLenFS fs) (10 ^ maxLenFS fs) (le_refl _)
    have h3 := mkCand_toStr_length dir st sf (10 ^ maxLenFS fs)
    omega
  · simpa using h

lemma resolveAux_spec (fs : FS) (dir st sf : Str) :
    ∀ (fuel i : Nat),
      (∃ j, i ≤ j ∧ j < i + fuel ∧ fsExists fs (mkCand dir st sf j).toStr = false) →
      ∃ k, i ≤ k ∧ resolveAux fs dir st sf i fuel = mkCand dir st sf k ∧
        fsExists fs (mkCand dir st sf k).toStr = false ∧
        ∀ j, i ≤ j → j < k → fsExists fs (mkCand dir st sf j).toStr = true := by
  intro fuel
  induction fuel with
  | zero =>
    intro i h
    obtain ⟨j, h1, h2, _⟩ := h
    omega
  | succ fuel ih =>
    intro i h
    obtain ⟨j, hij, hlt, hfree⟩ := h
    by_cases hc : fsExists fs (mkCand dir st sf i).toStr = true
    · have hji : j ≠ i := by
        intro e
        rw [e, hc] at hfree
        simp at hfree
      obtain ⟨k, hk1, hk2, hk3, hk4⟩ := ih (i + 1) ⟨j, by omega, by omega, hfree⟩
      refine ⟨k, by omega, ?_, hk3, ?_⟩
      · simpa [resolveAux, hc] using hk2
      · intro j' hj1 hj2
        by_cases hji' : j' = i
        · rw [hji']; exact hc
        · exact hk4 j' (by omega) hj2
    · have hc' : fsExists fs (mkCand dir st sf i).toStr = false := by
        simpa using hc
      refine ⟨i, le_refl i, ?_, hc', ?_⟩
      · simp [resolveAux, hc']
      · intro j' hj1 hj2
        omega

lemma resolve_collision_first (fs : FS) (p : Pth)
    (h : fsExists fs p.toStr = true) :
    ∃ k, 1 ≤ k ∧
      resolve_collision fs p = mkCand p.dir (stemOf p.file) (suffixOf p.file) k ∧
      fsExists fs (mkCand p.dir (stemOf p.file) (suffixOf p.file) k).toStr = false ∧
      ∀ j, 1 ≤ j → j < k →
        fsExists fs (mkCand p.dir (stemOf p.file) (suffixOf p.file) j).toStr = true := by
  have hex : ∃ j, 1 ≤ j ∧ j < 1 + 10 ^ (maxLenFS fs + 1) ∧
      fsExists fs (mkCand p.dir (stemOf p.file) (suffixOf p.file) j).toStr = false := by
    refine ⟨10 ^ maxLenFS fs, Nat.one_le_pow _ _ (by norm_num), ?_,
      bigCand_fresh fs p.dir (stemOf p.file) (suffixOf p.file)⟩
    have : (10 : Nat) ^ maxLenFS fs < 10 ^ (maxLenFS fs + 1) :=
      Nat.pow_lt_pow_succ (by norm_num)
    omega
  obtain ⟨k, hk1, hk2, hk3, hk4⟩ := resolveAux_spec fs p.dir _ _ _ 1 hex
  refine ⟨k, hk1, ?_, hk3, hk4⟩
  rw [resolve_collision, if_pos h]
  exact hk2

lemma resolve_collision_fresh (fs : FS) (p : Pth) :
    fsExists fs (resolve_collision fs p).toStr = false := by
  by_cases h : fsExists fs p.toStr = true
  · obtain ⟨k, _, hk2, hk3, _⟩ := resolve_collision_first fs p h
    rw [hk2]
    exact hk3
  · rw [resolve_collision, if_neg (by simpa using h)]
    simpa using h

lemma resolve_collision_free (fs : FS) (p : Pth) (h : fsExists fs p.toStr = false) :
    resolve_collision fs p = p := by
  rw [resolve_collision, if_neg (by simp [h])]

lemma applyOps_nil (fs : FS) : applyOps fs [] = fs := rfl

lemma applyOps_cons (fs : FS) (op : FsOp) (ops : List FsOp) :
    applyOps fs (op :: ops) = applyOps (applyOp fs op) ops := rfl

lemma applyOps_append (fs : FS) (l1 l2 : List FsOp) :
    applyOps fs (l1 ++ l2) = applyOps (applyOps fs l1) l2 := by
  simp [applyOps, List.foldl_append]

lemma fsLookup_applyOp_not_written (fs : FS) (op : FsOp) (q : Str)
    (h : q ∉ opWrites op) :
    fsLookup (applyOp fs op) q = fsLookup fs q := by
  cases op with
  | openW p =>
    simp only [opWrites, List.mem_singleton] at h
    simp only [applyOp]
    rw [fsLookup_set, if_neg (fun hh => h hh.symm)]
  | write p c =>
    simp only [opWrites, List.mem_singleton] at h
    simp only [applyOp]
    rw [fsLookup_set, if_neg (fun hh => h hh.symm)]
  | replace s d =>
    simp only [opWrites, List.mem_cons, List.mem_singleton] at h
    push_neg at h
    simp only [applyOp]
    cases hs : fsLookup fs s with
    | none => rfl
    | some v =>
      rw [fsLookup_set, if_neg (fun hh => h.2.1 hh.symm), fsLookup_erase,
        if_neg (fun hh => h.1 hh.symm)]
  | unlink p =>
    simp only [opWrites, List.mem_singleton] at h
    simp only [applyOp]
    rw [fsLookup_erase, if_neg (fun hh => h hh.symm)]

lemma fsLookup_applyOps_not_written (ops : List FsOp) :
    ∀ (fs : FS) (q : Str), (∀ op ∈ ops, q ∉ opWrites op) →
      fsLookup (applyOps fs ops) q = fsLookup fs q := by
  induction ops with
  | nil => intro fs q _; rfl
  | cons op t ih =>
    intro fs q h
    rw [applyOps_cons, ih _ q (fun o ho => h o (List.mem_cons_of_mem op ho)),
      fsLookup_applyOp_not_written fs op q (h op (List.mem_cons_self op t))]

lemma content_writes (t : Str) (chunks : List (List Nat)) :
    ∀ (fs : FS) (cur : List Nat), fsLookup fs t = some cur →
      fsLookup (applyOps fs (writeOps t chunks)) t = some (cur ++ chunks.flatten) := by
  induction chunks with
  | nil =>
    intro fs cur h
    simpa [writeOps, applyOps] using h
  | cons c cs ih =>
    intro fs cur h
    by_cases hc : c = []
    · subst hc
      rw [writeOps, if_pos rfl]
      simpa using ih fs cur h
    · rw [writeOps, if_neg hc, applyOps_cons]
      have h2 : fsLookup (applyOp fs (FsOp.write t c)) t = some (cur ++ c) := by
        simp only [applyOp, h]
        rw [fsLookup_set, if_pos rfl]
        simp
      rw [ih _ _ h2]
      simp

lemma content_after_stream (fs : FS) (t : Str) (chunks : List (List Nat)) :
    fsLookup (applyOps fs (FsOp.openW t :: writeOps t chunks)) t =
      some chunks.flatten := by
  rw [applyOps_cons]
  have h : fsLookup (applyOp fs (FsOp.openW t)) t = some [] := by
    simp only [applyOp]
    rw [fsLookup_set, if_pos rfl]
  simpa using content_writes t chunks _ [] h

lemma writeOps_mem (t : Str) (chunks : List (List Nat)) (op : FsOp)
    (h : op ∈ writeOps t chunks) : ∃ c, op = FsOp.write t c := by
  induction chunks with
  | nil => simp [writeOps] at h
  | cons c cs ih =>
    rw [writeOps] at h
    by_cases hc : c = []
    · rw [if_pos hc] at h
      exact ih h
    · rw [if_neg hc] at h
      rcases List.mem_cons.mp h with h1 | h2
      · exact ⟨c, h1⟩
      · exact ih h2

lemma temp_toStr_ne (fs : FS) (url dest_dir : Str) (seed : Nat) :
    (tempOf fs url dest_dir seed).toStr ≠ (destOf fs url dest_dir seed).toStr := by
  intro h
  have h5 : (".part".data : Str).length = 5 := rfl
  have := congrArg List.length h
  simp only [tempOf, Pth.toStr, List.length_append, List.length_cons, h5] at this
  omega

lemma bodyRun_snd (temp dest : Pth) (url : Str) (resp : Except Str HttpResp) :
    (bodyRun temp dest url resp).2 = respFailure url resp := by
  cases resp with
  | error e => rfl
  | ok r =>
    by_cases h : 400 ≤ r.status ∧ r.status < 600
    · simp [bodyRun, respFailure, h]
    · cases hs : r.streamErr <;> simp [bodyRun, respFailure, h, hs]

lemma download_one_snd (fs : FS) (url dest_dir : Str) (resp : Except Str HttpResp)
    (unlinkOk : Bool) (seed : Nat) :
    (download_one fs url dest_dir resp unlinkOk seed).2 =
      match filename_from_url seed url with
      | .error e => .error e
      | .ok _ =>
        .ok (match respFailure url resp with
             | some e => ⟨url, false, e⟩
             | none => ⟨url, true, (destOf fs url dest_dir seed).toStr⟩) := by
  cases hnm : filename_from_url seed url with
  | error e0 => simp [download_one, hnm]
  | ok nm =>
    cases resp with
    | error e => simp [download_one, bodyRun, respFailure, hnm]
    | ok r =>
      by_cases h : 400 ≤ r.status ∧ r.status < 600
      · simp [download_one, bodyRun, respFailure, hnm, h]
      · cases hs : r.streamErr <;>
          simp [download_one, bodyRun, respFailure, hnm, h, hs]

lemma fsExists_false_lookup (fs : FS) (q : Str) (h : fsExists fs q = false) :
    fsLookup fs q = none := by
  unfold fsExists at h
  exact Option.not_isSome_iff_eq_none.mp (by simp [h])

lemma destOf_lookup_none (fs : FS) (url dest_dir : Str) (seed : Nat) :
    fsLookup fs (destOf fs url dest_dir seed).toStr = none :=
  fsExists_false_lookup fs _
    (resolve_collision_fresh fs ⟨dest_dir, nameOf seed url⟩)

lemma download_one_trace_success (fs : FS) (url dest_dir : Str) (r : HttpResp)
    (unlinkOk : Bool) (seed : Nat) (nm : Str)
    (hnm : filename_from_url seed url = Except.ok nm)
    (hst : ¬ (400 ≤ r.status ∧ r.status < 600)) (hs : r.streamErr = none) :
    (download_one fs url dest_dir (.ok r) unlinkOk seed).1 =
      (FsOp.openW (tempOf fs url dest_dir seed).toStr ::
        writeOps (tempOf fs url dest_dir seed).toStr r.chunks) ++
      [FsOp.replace (tempOf fs url dest_dir seed).toStr
        (destOf fs url dest_dir seed).toStr] := by
  simp [download_one, bodyRun, hnm, hst, hs]

lemma download_one_trace_fail_shape (fs : FS) (url dest_dir : Str)
    (resp : Except Str HttpResp) (unlinkOk : Bool) (seed : Nat) (e : Str)
    (hf : respFailure url resp = some e) :
    ∀ op ∈ (download_one fs url dest_dir resp unlinkOk seed).1,
      op = FsOp.openW (tempOf fs url dest_dir seed).toStr ∨
      (∃ c, op = FsOp.write (tempOf fs url dest_dir seed).toStr c) ∨
      op = FsOp.unlink (tempOf fs url dest_dir seed).toStr := by
  cases hnm : filename_from_url seed url with
  | error e0 =>
    intro op hop
    simp [download_one, hnm] at hop
  | ok nm =>
    cases resp with
    | error e' =>
      intro op hop
      simp only [download_one, hnm, bodyRun] at hop
      split at hop
      · split at hop
        · simp at hop
          right; right; exact hop
        · simp at hop
      · simp at hop
    | ok r =>
      by_cases hst : 400 ≤ r.status ∧ r.status < 600
      · intro op hop
        simp only [download_one, hnm, bodyRun, if_pos hst] at hop
        split at hop
        · split at hop
          · simp at hop
            right; right; exact hop
          · simp at hop
        · simp at hop
      · cases hs : r.streamErr with
        | none => simp [respFailure, hst, hs] at hf
        | some e2 =>
          intro op hop
          simp only [download_one, hnm, bodyRun, if_neg hst, hs] at hop
          split at hop
          · split at hop
            · rcases List.mem_append.mp hop with h1 | h2
              · rcases List.mem_cons.mp h1 with h3 | h4
                · left; exact h3
                · right; left; exact writeOps_mem _ _ _ h4
              · right; right; simpa using h2
            · rcases List.mem_cons.mp hop with h3 | h4
              · left; exact h3
              · right; left; exact writeOps_mem _ _ _ h4
          · rcases List.mem_cons.mp hop with h3 | h4
            · left; exact h3
            · right; left; exact writeOps_mem _ _ _ h4

lemma lookup_none_on_prefix (fs : FS) (q : Str) (h0 : fsLookup fs q = none)
    (pre : List FsOp) (hsafe : ∀ op ∈ pre, q ∉ opWrites op) :
    fsLookup (applyOps fs pre) q = none := by
  rw [fsLookup_applyOps_not_written pre fs q hsafe, h0]

/-- C1.  Atomic publish: along every prefix of the filesystem trace of
`download_one`, the final destination path is absent, except after the very
last operation of a successful run, which is the rename and installs the
complete response body; so an observer never sees a partially-written final
file.  A call whose name resolution raises performs no operation at all, so
the invariant covers it trivially. -/
theorem download_one_atomic_publish (fs : FS) (url dest_dir : Str)
    (resp : Except Str HttpResp) (unlinkOk : Bool) (seed : Nat)
    (pre post : List FsOp)
    (h : (download_one fs url dest_dir resp unlinkOk seed).1 = pre ++ post) :
    fsLookup (applyOps fs pre) (destOf fs url dest_dir seed).toStr = none ∨
    (∃ r, resp = .ok r ∧ post = [] ∧
      (download_one fs url dest_dir resp unlinkOk seed).2 =
        Except.ok ⟨url, true, (destOf fs url dest_dir seed).toStr⟩ ∧
      fsLookup (applyOps fs pre) (destOf fs url dest_dir seed).toStr =
        some r.chunks.flatten) := by
  have hTD := temp_toStr_ne fs url dest_dir seed
  have hD0 := destOf_lookup_none fs url dest_dir seed
  cases hnm : filename_from_url seed url with
  | error e0 =>
    left
    have h0 : pre ++ post = ([] : List FsOp) := by
      rw [← h]
      simp [download_one, hnm]
    obtain ⟨rfl, -⟩ := List.append_eq_nil.mp h0
    rw [applyOps_nil]
    exact hD0
  | ok nm =>
    rcases hfail : respFailure url resp with - | e
    · -- the fetch succeeds: extract the response and its two side conditions
      cases resp with
      | error e' => simp [respFailure] at hfail
      | ok r =>
        by_cases hst : 400 ≤ r.status ∧ r.status < 600
        · simp [respFailure, hst] at hfail
        · have hs : r.streamErr = none := by
            simpa [respFailure, hst] using hfail
          rw [download_one_trace_success fs url dest_dir r unlinkOk seed nm hnm hst hs] at h
          have hfront : ∀ op ∈ (FsOp.openW (tempOf fs url dest_dir seed).toStr ::
              writeOps (tempOf fs url dest_dir seed).toStr r.chunks),
              (destOf fs url dest_dir seed).toStr ∉ opWrites op := by
            intro op hop
            rcases List.mem_cons.mp hop with h1 | h2
            · subst h1
              simp only [opWrites, List.mem_singleton]
              exact fun hh => hTD hh.symm
            · obtain ⟨c, rfl⟩ := writeOps_mem _ _ _ h2
              simp only [opWrites, List.mem_singleton]
              exact fun hh => hTD hh.symm
          rcases List.append_eq_append_iff.mp h.symm with ⟨a', ha1, -⟩ | ⟨c', hc1, hc2⟩
          · -- pre stops before the rename
            left
            refine lookup_none_on_prefix fs _ hD0 pre (fun op hop => ?_)
            refine hfront op ?_
            rw [ha1]
            exact List.mem_append_left a' hop
          · cases c' with
            | nil =>
              -- pre is exactly the trace up to, and excluding, the rename
              left
              rw [List.append_nil] at hc1
              refine lookup_none_on_prefix fs _ hD0 pre (fun op hop => ?_)
              refine hfront op ?_
              rw [← hc1]
              exact hop
            | cons x t =>
              -- pre is the whole trace, rename included
              have hx := hc2
              rw [List.cons_append] at hx
              injection hx with hx1 hx2
              have ht : t = [] ∧ post = [] := List.append_eq_nil.mp hx2.symm
              obtain ⟨rfl, rfl⟩ := ht
              right
              refine ⟨r, rfl, rfl, ?_, ?_⟩
              · rw [download_one_snd]
                simp [hnm, hfail]
              · rw [hc1, ← hx1, applyOps_append]
                have hT := content_after_stream fs (tempOf fs url dest_dir seed).toStr r.chunks
                rw [applyOps_cons, applyOps_nil]
                simp only [applyOp, hT]
                rw [fsLookup_set, if_pos rfl]
    · -- the fetch fails: the destination is never written at all
      left
      have hshape := download_one_trace_fail_shape fs url dest_dir resp unlinkOk seed e hfail
      refine lookup_none_on_prefix fs _ hD0 pre (fun op hop => ?_)
      have hmem : op ∈ (download_one fs url dest_dir resp unlinkOk seed).1 := by
        rw [h]
        exact List.mem_append_left post hop
      rcases hshape op hmem with h1 | ⟨c, h1⟩ | h1 <;> subst h1 <;>
        simp only [opWrites, List.mem_singleton] <;>
        exact fun hh => hTD hh.symm

lemma nameResolves_exists (seed : Nat) (url : Str)
    (h : nameResolves seed url = true) :
    ∃ nm, filename_from_url seed url = Except.ok nm := by
  unfold nameResolves at h
  cases hnm : filename_from_url seed url with
  | ok nm => exact ⟨nm, rfl⟩
  | error e => rw [hnm] at h; simp at h

lemma download_one_ok_url (fs : FS) (url dest_dir : Str)
    (resp : Except Str HttpResp) (unlinkOk : Bool) (seed : Nat) (out : Outcome)
    (h : (download_one fs url dest_dir resp unlinkOk seed).2 = Except.ok out) :
    out.url = url := by
  rw [download_one_snd] at h
  cases hnm : filename_from_url seed url with
  | error e => rw [hnm] at h; simp at h
  | ok nm =>
    rw [hnm] at h
    cases hr : respFailure url resp with
    | none =>
      rw [hr] at h
      simp at h
      rw [← h]
    | some e =>
      rw [hr] at h
      simp at h
      rw [← h]

lemma download_one_returns (fs : FS) (url dest_dir : Str)
    (resp : Except Str HttpResp) (unlinkOk : Bool) (seed : Nat)
    (hn : nameResolves seed url = true) :
    ∃ out, (download_one fs url dest_dir resp unlinkOk seed).2 = Except.ok out := by
  obtain ⟨nm, hnm⟩ := nameResolves_exists seed url hn
  rw [download_one_snd]
  simp only [hnm]
  cases respFailure url resp <;> exact ⟨_, rfl⟩

lemma runBatch_collect (dest_dir : Str) (resps : Str → Except Str HttpResp)
    (unlinkOk : Bool) (seed : Nat) (urls : List Str) :
    ∀ fs : FS, (∀ u ∈ urls, nameResolves seed u = true) →
      (runBatch fs dest_dir resps unlinkOk seed urls).2.1.map Outcome.url = urls ∧
      (runBatch fs dest_dir resps unlinkOk seed urls).2.2 = none := by
  induction urls with
  | nil => intro fs _; exact ⟨rfl, rfl⟩
  | cons u us ih =>
    intro fs hall
    obtain ⟨out, hout⟩ := download_one_returns fs u dest_dir (resps u) unlinkOk seed
      (hall u (List.mem_cons_self u us))
    have hurl := download_one_ok_url fs u dest_dir (resps u) unlinkOk seed out hout
    have hrest := ih (applyOps fs (download_one fs u dest_dir (resps u) unlinkOk seed).1)
      (fun v hv => hall v (List.mem_cons_of_mem u hv))
    constructor
    · simp only [runBatch, hout]
      simp [hurl, hrest.1]
    · simp only [runBatch, hout]
      simp [hrest.2]

/-- C2.  One Outcome per Request holds for every batch whose URLs all
resolve to a name: the collection loop then yields exactly one Outcome per
submitted URL, in order, and no exception escapes.  (When some URL's name
resolution raises, the loop aborts and outcomes are dropped — see the
counterexample.) -/
theorem runBatch_one_outcome_per_request (fs : FS) (dest_dir : Str)
    (resps : Str → Except Str HttpResp) (unlinkOk : Bool) (seed : Nat)
    (urls : List Str) (h : ∀ u ∈ urls, nameResolves seed u = true) :
    (runBatch fs dest_dir resps unlinkOk seed urls).2.1.map Outcome.url = urls ∧
    (runBatch fs dest_dir resps unlinkOk seed urls).2.1.length = urls.length ∧
    (runBatch fs dest_dir resps unlinkOk seed urls).2.2 = none := by
  obtain ⟨h1, h2⟩ := runBatch_collect dest_dir resps unlinkOk seed urls fs h
  refine ⟨h1, ?_, h2⟩
  have h3 := congrArg List.length h1
  rw [List.length_map] at h3
  exact h3

theorem runBatch_one_outcome_per_request_witness :
    (runBatch [] "/d".data (fun _ => .ok ⟨200, [[1]], none⟩) true 0
        ["http://e/x.pdf".data]).2.1.map Outcome.url = ["http://e/x.pdf".data] ∧
    (runBatch [] "/d".data (fun _ => .ok ⟨200, [[1]], none⟩) true 0
        ["http://e/x.pdf".data]).2.1.length = (["http://e/x.pdf".data] : List Str).length ∧
    (runBatch [] "/d".data (fun _ => .ok ⟨200, [[1]], none⟩) true 0
        ["http://e/x.pdf".data]).2.2 = none :=
  runBatch_one_outcome_per_request [] "/d".data (fun _ => .ok ⟨200, [[1]], none⟩) true 0
    ["http://e/x.pdf".data] (by decide)

theorem runBatch_drops_outcomes_on_invalid_url :
    (runBatch [] "/d".data (fun _ => .ok ⟨200, [[1]], none⟩) true 0
        ["http://[".data, "http://e/x.pdf".data]).2.1.length = 0 ∧
    (runBatch [] "/d".data (fun _ => .ok ⟨200, [[1]], none⟩) true 0
        ["http://[".data, "http://e/x.pdf".data]).2.2 =
      some "Invalid IPv6 URL".data ∧
    (["http://[".data, "http://e/x.pdf".data] : List Str).length = 2 :=
  ⟨by decide, by decide, by decide⟩

/-- C3.  Error containment at the try-block boundary: when name resolution
returns, every failure of the fetch is converted by `download_one` into a
Failed Outcome carrying the error text, and a batch whose URLs all resolve
completes with one Outcome per URL and no escaping exception.  Name
resolution itself (line 64, outside the `try`) can raise, and that
exception does escape `download_one` — see the counterexample. -/
theorem download_one_error_isolation (fs : FS) (url dest_dir : Str)
    (resp : Except Str HttpResp) (unlinkOk : Bool) (seed : Nat) :
    (nameResolves seed url = true →
      ∀ e, respFailure url resp = some e →
        (download_one fs url dest_dir resp unlinkOk seed).2 =
          Except.ok ⟨url, false, e⟩) ∧
    ∀ (resps : Str → Except Str HttpResp) (urls : List Str),
      (∀ u ∈ urls, nameResolves seed u = true) →
      (runBatch fs dest_dir resps unlinkOk seed urls).2.1.length = urls.length ∧
      (runBatch fs dest_dir resps unlinkOk seed urls).2.2 = none := by
  constructor
  · intro hn e he
    obtain ⟨nm, hnm⟩ := nameResolves_exists seed url hn
    rw [download_one_snd]
    simp [hnm, he]
  · intro resps urls hall
    obtain ⟨h1, h2⟩ := runBatch_collect dest_dir resps unlinkOk seed urls fs hall
    refine ⟨?_, h2⟩
    have h3 := congrArg List.length h1
    rw [List.length_map] at h3
    exact h3

theorem download_one_error_isolation_witness :
    (download_one [] "u".data "/d".data (.error "boom".data) true 0).2 =
      Except.ok ⟨"u".data, false, "boom".data⟩ :=
  (download_one_error_isolation [] "u".data "/d".data (.error "boom".data) true 0).1
    (by decide) "boom".data (by decide)

theorem download_one_raises_on_invalid_url :
    (download_one [] "http://[".data "/d".data (.ok ⟨200, [], none⟩) true 0).2 =
      Except.error "Invalid IPv6 URL".data := by decide

lemma download_one_no_part_left (fs : FS) (url dest_dir : Str)
    (resp : Except Str HttpResp) (seed : Nat) (e nm : Str)
    (hnm : filename_from_url seed url = Except.ok nm)
    (he : respFailure url resp = some e) :
    fsLookup (applyOps fs (download_one fs url dest_dir resp true seed).1)
      (tempOf fs url dest_dir seed).toStr = none := by
  cases resp with
  | error e' =>
    simp only [download_one, hnm, bodyRun]
    by_cases hex : fsExists (applyOps fs []) (tempOf fs url dest_dir seed).toStr = true
    · simp only [hex, if_true, List.nil_append]
      rw [applyOps_cons, applyOps_nil]
      simp only [applyOp]
      rw [fsLookup_erase, if_pos rfl]
    · have hex' : fsExists fs (tempOf fs url dest_dir seed).toStr = false := by
        simpa [applyOps_nil] using hex
      simp only [applyOps_nil, hex', Bool.false_eq_true, if_false]
      exact fsExists_false_lookup fs _ hex'
  | ok r =>
    by_cases hst : 400 ≤ r.status ∧ r.status < 600
    · simp only [download_one, hnm, bodyRun, if_pos hst]
      by_cases hex : fsExists (applyOps fs []) (tempOf fs url dest_dir seed).toStr = true
      · simp only [hex, if_true, List.nil_append]
        rw [applyOps_cons, applyOps_nil]
        simp only [applyOp]
        rw [fsLookup_erase, if_pos rfl]
      · have hex' : fsExists fs (tempOf fs url dest_dir seed).toStr = false := by
          simpa [applyOps_nil] using hex
        simp only [applyOps_nil, hex', Bool.false_eq_true, if_false]
        exact fsExists_false_lookup fs _ hex'
    · cases hs : r.streamErr with
      | none => simp [respFailure, hst, hs] at he
      | some e2 =>
        simp only [download_one, hnm, bodyRun, if_neg hst, hs]
        have hT := content_after_stream fs (tempOf fs url dest_dir seed).toStr r.chunks
        have hex : fsExists
            (applyOps fs (FsOp.openW (tempOf fs url dest_dir seed).toStr ::
              writeOps (tempOf fs url dest_dir seed).toStr r.chunks))
            (tempOf fs url dest_dir seed).toStr = true := by
          simp [fsExists, hT]
        simp only [hex, if_true]
        rw [applyOps_append, applyOps_cons, applyOps_nil]
        simp only [applyOp]
        rw [fsLookup_erase, if_pos rfl]

/-- C4.  Cleanup on failure: when name resolution returns and the fetch of
one URL fails, the Outcome carries the original error as its detail whether
or not the swallowed `temp.unlink()` itself succeeds, and when the deletion
succeeds no `.part` file is left at the temporary path. -/
theorem download_one_cleanup_on_failure (fs : FS) (url dest_dir : Str)
    (resp : Except Str HttpResp) (unlinkOk : Bool) (seed : Nat) (e : Str)
    (hn : nameResolves seed url = true)
    (he : respFailure url resp = some e) :
    (download_one fs url dest_dir resp unlinkOk seed).2 =
      Except.ok ⟨url, false, e⟩ ∧
    fsLookup (applyOps fs (download_one fs url dest_dir resp true seed).1)
      (tempOf fs url dest_dir seed).toStr = none := by
  obtain ⟨nm, hnm⟩ := nameResolves_exists seed url hn
  constructor
  · rw [download_one_snd]
    simp [hnm, he]
  · exact download_one_no_part_left fs url dest_dir resp seed e nm hnm he

theorem download_one_cleanup_on_failure_witness :
    (download_one [] "u".data "/d".data (.ok ⟨200, [[9]], some "reset".data⟩) false 0).2 =
      Except.ok ⟨"u".data, false, "reset".data⟩ ∧
    fsLookup (applyOps [] (download_one [] "u".data "/d".data
        (.ok ⟨200, [[9]], some "reset".data⟩) true 0).1)
      (tempOf [] "u".data "/d".data 0).toStr = none :=
  download_one_cleanup_on_failure [] "u".data "/d".data
    (.ok ⟨200, [[9]], some "reset".data⟩) false 0 "reset".data (by decide) (by decide)

/-- C10.  Outcome shape: whenever `download_one` returns an Outcome, it
carries the input URL unchanged on both branches; on success its detail is
the final destination path, on failure its detail is the error
description. -/
theorem download_one_outcome_fields (fs : FS) (url dest_dir : Str)
    (resp : Except Str HttpResp) (unlinkOk : Bool) (seed : Nat) :
    ∀ out, (download_one fs url dest_dir resp unlinkOk seed).2 = Except.ok out →
      out.url = url ∧
      out = (match respFailure url resp with
             | some e => ⟨url, false, e⟩
             | none => ⟨url, true, (destOf fs url dest_dir seed).toStr⟩) := by
  intro out h
  refine ⟨download_one_ok_url fs url dest_dir resp unlinkOk seed out h, ?_⟩
  rw [download_one_snd] at h
  cases hnm : filename_from_url seed url with
  | error e => rw [hnm] at h; simp at h
  | ok nm =>
    rw [hnm] at h
    cases hr : respFailure url resp with
    | none =>
      rw [hr] at h
      simpa using h.symm
    | some e =>
      rw [hr] at h
      simpa using h.symm

theorem download_one_outcome_fields_witness :
    (⟨"u".data, false, "boom".data⟩ : Outcome).url = "u".data ∧
    (⟨"u".data, false, "boom".data⟩ : Outcome) =
      (match respFailure "u".data (Except.error "boom".data : Except Str HttpResp) with
       | some e => (⟨"u".data, false, e⟩ : Outcome)
       | none => ⟨"u".data, true, (destOf [] "u".data "/d".data 0).toStr⟩) :=
  download_one_outcome_fields [] "u".data "/d".data (Except.error "boom".data) true 0
    ⟨"u".data, false, "boom".data⟩ (by decide)

/-- C5.  Retry policy of the session: the adapter mounted on both schemes
is configured with `Retry(total=5)` — under the `urllib3` contract up to 5
retries beyond the initial request, i.e. at most 6 HTTP attempts per GET —
with backoff factor 0.5 doubling between attempts, retried status codes
exactly {429, 500, 502, 503, 504}, and retried methods exactly GET and
HEAD. -/
theorem create_session_retry_policy :
    ∃ cfg : RetryCfg,
      get_session.mounts = [("http://".data, cfg), ("https://".data, cfg)] ∧
      cfg.total = 5 ∧
      maxAttempts cfg = 6 ∧
      cfg.backoff_factor = 1 / 2 ∧
      cfg.status_forcelist = [429, 500, 502, 503, 504] ∧
      cfg.allowed_methods = ["GET".data, "HEAD".data] ∧
      (∀ m c, retryEligible cfg m c = true ↔
        ((m = "GET".data ∨ m = "HEAD".data) ∧
         (c = 429 ∨ c = 500 ∨ c = 502 ∨ c = 503 ∨ c = 504))) ∧
      backoffDelay cfg 0 = 1 / 2 ∧
      ∀ k, backoffDelay cfg (k + 1) = 2 * backoffDelay cfg k := by
  refine ⟨⟨5, 1 / 2, [429, 500, 502, 503, 504], ["GET".data, "HEAD".data]⟩,
    rfl, rfl, rfl, rfl, rfl, rfl, ?_, ?_, ?_⟩
  · intro m c
    simp [retryEligible, List.mem_cons, or_assoc]
  · simp [backoffDelay]
  · intro k
    simp [backoffDelay, pow_succ]
    ring

theorem session_allows_six_attempts :
    ∃ cfg : RetryCfg,
      get_session.mounts = [("http://".data, cfg), ("https://".data, cfg)] ∧
      maxAttempts cfg = 6 ∧ ¬ maxAttempts cfg ≤ 5 :=
  ⟨⟨5, 1 / 2, [429, 500, 502, 503, 504], ["GET".data, "HEAD".data]⟩,
    rfl, rfl, by decide⟩

/-- C6.  Worker sizing: for a non-empty request list the effective worker
count is `max(1, min(W, n))`, hence at least one and at most the number of
requests. -/
theorem effective_workers_bounds (w : Int) (n : Nat) (h : 0 < n) :
    effectiveWorkers w n = max 1 (min w (n : Int)) ∧
    1 ≤ effectiveWorkers w n ∧
    effectiveWorkers w n ≤ (n : Int) := by
  refine ⟨rfl, le_max_left 1 _, ?_⟩
  have h1 : (1 : Int) ≤ (n : Int) := by exact_mod_cast h
  exact max_le h1 (min_le_right _ _)

theorem effective_workers_bounds_witness :
    0 < 3 ∧
    (effectiveWorkers 10 3 = max 1 (min 10 (3 : Int)) ∧
     1 ≤ effectiveWorkers 10 3 ∧
     effectiveWorkers 10 3 ≤ (3 : Int)) :=
  ⟨by decide, effective_workers_bounds 10 3 (by decide)⟩

/-- C7.  Collision resolution: the returned path never exists at call time;
it is the candidate itself when unused, and otherwise the first of
`name_1`, `name_2`, ... (counter inserted before the extension) that does
not exist. -/
theorem resolve_collision_spec (fs : FS) (p : Pth) :
    fsExists fs (resolve_collision fs p).toStr = false ∧
    (fsExists fs p.toStr = false → resolve_collision fs p = p) ∧
    (fsExists fs p.toStr = true →
      ∃ k, 1 ≤ k ∧
        resolve_collision fs p = mkCand p.dir (stemOf p.file) (suffixOf p.file) k ∧
        ∀ j, 1 ≤ j → j < k →
          fsExists fs (mkCand p.dir (stemOf p.file) (suffixOf p.file) j).toStr = true) := by
  refine ⟨resolve_collision_fresh fs p, resolve_collision_free fs p, fun h => ?_⟩
  obtain ⟨k, h1, h2, h3, h4⟩ := resolve_collision_first fs p h
  exact ⟨k, h1, h2, h4⟩

theorem resolve_collision_spec_witness :
    ∃ k, 1 ≤ k ∧
      resolve_collision [("/d/a.pdf".data, ([] : List Nat)), ("/d/a_1.pdf".data, [])]
          ⟨"/d".data, "a.pdf".data⟩ =
        mkCand "/d".data (stemOf "a.pdf".data) (suffixOf "a.pdf".data) k ∧
      ∀ j, 1 ≤ j → j < k →
        fsExists [("/d/a.pdf".data, ([] : List Nat)), ("/d/a_1.pdf".data, [])]
          (mkCand "/d".data (stemOf "a.pdf".data) (suffixOf "a.pdf".data) j).toStr = true :=
  (resolve_collision_spec [("/d/a.pdf".data, ([] : List Nat)), ("/d/a_1.pdf".data, [])]
    ⟨"/d".data, "a.pdf".data⟩).2.2 (by decide)

lemma replaceChar_not_mem (a b : Char) (s : Str) (h : b ≠ a) :
    a ∉ replaceChar a b s := by
  intro hmem
  rcases List.mem_map.mp hmem with ⟨c, hc, he⟩
  by_cases h1 : c = a
  · rw [if_pos h1] at he
    exact h he
  · rw [if_neg h1] at he
    exact h1 he

lemma replaceChar_mem_of (a b x : Char) (s : Str) (hx : x ∈ replaceChar a b s) :
    x = b ∨ x ∈ s := by
  rcases List.mem_map.mp hx with ⟨c, hc, he⟩
  by_cases h1 : c = a
  · rw [if_pos h1] at he
    left
    exact he.symm
  · rw [if_neg h1] at he
    right
    exact he ▸ hc

lemma replaceChar_ne_nil (a b : Char) (s : Str) (h : s ≠ []) :
    replaceChar a b s ≠ [] := by
  simpa [replaceChar] using h

lemma fallbackName_ne_nil (seed : Nat) (url : Str) : fallbackName seed url ≠ [] := by
  intro h
  have h5 : ("file_".data : Str).length = 5 := rfl
  have := congrArg List.length h
  simp only [fallbackName, List.length_append, h5, List.length_nil] at this
  omega

lemma sanitize_safe (s : Str) (h : s ≠ []) :
    replaceChar '\\' '_' (replaceChar '/' '_' s) ≠ [] ∧
    '/' ∉ replaceChar '\\' '_' (replaceChar '/' '_' s) ∧
    '\\' ∉ replaceChar '\\' '_' (replaceChar '/' '_' s) := by
  refine ⟨replaceChar_ne_nil _ _ _ (replaceChar_ne_nil _ _ _ h), ?_, ?_⟩
  · intro hmem
    rcases replaceChar_mem_of _ _ _ _ hmem with h1 | h1
    · exact absurd h1 (by decide)
    · exact replaceChar_not_mem '/' '_' _ (by decide) h1
  · exact replaceChar_not_mem '\\' '_' _ (by decide)

/-- C8.  Safe leaf names: whenever `filename_from_url` returns a name (that
is, `urlparse` does not raise), the name is non-empty and contains no path
separator (neither `/` nor `\`), so it cannot cause directory traversal or
nested-path creation.  On a bracket-mismatched URL no name is returned at
all — see the counterexample. -/
theorem filename_from_url_safe (seed : Nat) (url : Str) (nm : Str)
    (h : filename_from_url seed url = Except.ok nm) :
    nm ≠ [] ∧ '/' ∉ nm ∧ '\\' ∉ nm := by
  cases hu : urlPath url with
  | error e =>
    rw [filename_from_url, hu] at h
    simp at h
  | ok p =>
    rw [filename_from_url, hu] at h
    have hnm : nameFromPath seed url p = nm := by simpa using h
    subst hnm
    have hn2 : (if unquote ((basename p).takeWhile (fun c => c ≠ '?')) = []
        then fallbackName seed url
        else unquote ((basename p).takeWhile (fun c => c ≠ '?'))) ≠ [] := by
      split
      · exact fallbackName_ne_nil seed url
      · assumption
    simpa only [nameFromPath] using sanitize_safe _ hn2

theorem filename_from_url_safe_witness :
    ("x.pdf".data : Str) ≠ [] ∧ '/' ∉ ("x.pdf".data : Str) ∧
    '\\' ∉ ("x.pdf".data : Str) :=
  filename_from_url_safe 0 "http://e/x.pdf".data "x.pdf".data (by decide)

theorem filename_from_url_raises_on_invalid_url :
    filename_from_url 0 "http://[".data = Except.error "Invalid IPv6 URL".data := by
  decide

/-- C9.  Fallback naming: at a URL whose path has an empty last segment the
name is the sanitized `file_<abs(hash(url))>.pdf`, but the salted hash
makes the name depend on the per-process hash seed, so the fallback name is
not stable across runs. -/
theorem filename_fallback_hash_unstable :
    filename_from_url 0 "http://example.com/".data =
      Except.ok (replaceChar '\\' '_' (replaceChar '/' '_'
        (fallbackName 0 "http://example.com/".data))) ∧
    filename_from_url 0 "http://example.com/".data ≠
      filename_from_url 1 "http://example.com/".data :=
  ⟨by decide, by decide⟩

theorem download_one_atomic_publish_witness :
    fsLookup (applyOps [] [FsOp.openW "/d/u.part".data, FsOp.write "/d/u.part".data [1],
        FsOp.replace "/d/u.part".data "/d/u".data])
      (destOf [] "u".data "/d".data 0).toStr = none ∨
    (∃ r, (Except.ok ⟨200, [[1]], none⟩ : Except Str HttpResp) = .ok r ∧
      ([] : List FsOp) = [] ∧
      (download_one [] "u".data "/d".data (.ok ⟨200, [[1]], none⟩) true 0).2 =
        Except.ok ⟨"u".data, true, (destOf [] "u".data "/d".data 0).toStr⟩ ∧
      fsLookup (applyOps [] [FsOp.openW "/d/u.part".data, FsOp.write "/d/u.part".data [1],
          FsOp.replace "/d/u.part".data "/d/u".data])
        (destOf [] "u".data "/d".data 0).toStr = some r.chunks.flatten) :=
  download_one_atomic_publish [] "u".data "/d".data (.ok ⟨200, [[1]], none⟩) true 0
    [FsOp.openW "/d/u.part".data, FsOp.write "/d/u.part".data [1],
      FsOp.replace "/d/u.part".data "/d/u".data] [] (by decide)
